import Mathlib

/-
Verification of the GitHub events tracker engine (src/app.py): the event
store with `INSERT OR IGNORE` deduplication, the time/count-bounded window
selection, the interval aggregation served by `/stats`, the per-repository
error containment of the poll cycle, the configuration cap, and the
scheduler's single-cycle discipline.

Modelling conventions:
- SQL `NULL` values (from `event.get(...)` on absent fields) are `Option`.
- Timestamps are integer seconds; ISO-8601 UTC strings of the fixed layout
  used by the feed compare lexicographically exactly as their instants
  compare, so the SQL string comparison `created_at >= cutoff` and the
  `ORDER BY datetime(created_at)` become integer comparison and sorting.
- Python floats are modelled as rationals `ℚ`.
- Python exceptions are modelled with `Except`; a `try/except` that
  swallows every raised class becomes a total function.
-/

namespace EventsTracker

/-! ### Constants (src/app.py lines 26-29) -/

def POLL_INTERVAL_SECONDS : Nat := 60

def MAX_REPOS : Nat := 5

def MAX_EVENTS : Nat := 500

def MAX_DAYS : Int := 7

/-! ### Data model -/

/-- A raw event as handed to `insert_event`: the fields the code reads via
`event.get(...)` (absent fields read as `None`), plus the serialized payload
that `json.dumps(event)` produces, kept abstract as a string. -/
structure Event where
  id : Option String
  type : Option String
  created_at : Option Int
  payload : String
deriving DecidableEq

/-- One row of the `events` table created by `init_db` (src/app.py 62-78):
`id TEXT PRIMARY KEY, repo TEXT, event_type TEXT, created_at TEXT,
raw_json TEXT`.  Every column except `repo` (always supplied by the caller)
may be NULL; SQLite permits NULL in a TEXT PRIMARY KEY column. -/
structure Row where
  id : Option String
  repo : String
  event_type : Option String
  created_at : Option Int
  raw_json : String
deriving DecidableEq

/-- The `events` table contents, in insertion (rowid) order. -/
abbrev Store := List Row

/-- The row that `insert_event` writes for event `e` fetched for `repo`. -/
def rowOf (e : Event) (repo : String) : Row :=
  ⟨e.id, repo, e.type, e.created_at, e.payload⟩

/-- `insert_event` (src/app.py 81-114): `INSERT OR IGNORE` keyed on the TEXT
PRIMARY KEY `id`.  SQLite ignores the insert exactly when some existing row
has the same non-NULL `id`; a NULL `id` never conflicts with anything (each
NULL is distinct), so such an insert always appends a row. -/
def insert_event (store : Store) (e : Event) (repo : String) : Store :=
  match e.id with
  | some i =>
      if store.any (fun r => r.id == some i) then store
      else store ++ [rowOf e repo]
  | none => store ++ [rowOf e repo]

/-- A sequence of `insert_event` calls, applied in order. -/
def foldInsert (store : Store) (l : List (Event × String)) : Store :=
  l.foldl (fun s p => insert_event s p.1 p.2) store

/-! ### Window selection (`get_recent_events`, src/app.py 117-140) -/

/-- The cutoff `now - timedelta(days=MAX_DAYS)` used by `get_recent_events`
and `get_stats`, in seconds. -/
def cutoffOf (now : Int) : Int := now - MAX_DAYS * 86400

/-- The SQL condition `created_at >= ?`: a NULL `created_at` compares as
unknown and the row is excluded. -/
def inCutoff (cutoff : Int) (r : Row) : Bool :=
  match r.created_at with
  | some t => decide (cutoff ≤ t)
  | none => false

/-- The SQL condition `repo = ? AND event_type = ? AND created_at >= ?` of
the `get_recent_events` query; `=` against a NULL column (or with a NULL
parameter) never holds. -/
def matchesQuery (repo : String) (etype : Option String) (cutoff : Int) (r : Row) : Bool :=
  r.repo == repo &&
    (match etype, r.event_type with
     | some s, some s' => s' == s
     | _, _ => false) &&
    inCutoff cutoff r

/-- The result of `SELECT created_at FROM events WHERE repo = ? AND
event_type = ? AND created_at >= ? ORDER BY datetime(created_at) ASC`:
the matching timestamps, sorted ascending. -/
def queryTimes (store : Store) (repo : String) (etype : Option String) (cutoff : Int) :
    List Int :=
  List.insertionSort (· ≤ ·)
    ((store.filter (matchesQuery repo etype cutoff)).filterMap Row.created_at)

/-- `get_recent_events` (src/app.py 117-140): the pair's events of the last
`MAX_DAYS` days in ascending order; if more than `MAX_EVENTS` qualify, only
the most recent `MAX_EVENTS` are kept (`events[-MAX_EVENTS:]`), still
ascending. -/
def get_recent_events (store : Store) (repo : String) (etype : Option String) (now : Int) :
    List Int :=
  if MAX_EVENTS < (queryTimes store repo etype (cutoffOf now)).length then
    (queryTimes store repo etype (cutoffOf now)).drop
      ((queryTimes store repo etype (cutoffOf now)).length - MAX_EVENTS)
  else queryTimes store repo etype (cutoffOf now)

/-! ### Statistics (`get_stats`, src/app.py 197-241) -/

/-- `SELECT DISTINCT repo, event_type FROM events WHERE created_at >= ?`. -/
def distinct_pairs (store : Store) (cutoff : Int) : List (String × Option String) :=
  ((store.filter (inCutoff cutoff)).map (fun r => (r.repo, r.event_type))).dedup

/-- The interval average computed in the `get_stats` loop:
`(event_times[-1] - event_times[0]).total_seconds() / (len(event_times) - 1)`. -/
def statValue (w : List Int) : ℚ :=
  ((w.getLastI - w.headI : ℤ) : ℚ) / ((w.length : ℚ) - 1)

/-- One iteration of the `get_stats` loop: `none` when the window has fewer
than two events (the `continue` branch), otherwise the average interval. -/
def statOf (store : Store) (now : Int) (p : String × Option String) : Option ℚ :=
  if (get_recent_events store p.1 p.2 now).length < 2 then none
  else some (statValue (get_recent_events store p.1 p.2 now))

/-- `get_stats` (src/app.py 197-241), as the association map
`(repo, event_type) ↦ average interval` carried by the nested JSON object
`results`. -/
def get_stats (store : Store) (now : Int) : List ((String × Option String) × ℚ) :=
  (distinct_pairs store (cutoffOf now)).filterMap
    (fun p => (statOf store now p).map (fun v => (p, v)))

/-- Lookup of `results[repo][event_type]` in the stats map. -/
def lookupStat (p : String × Option String) :
    List ((String × Option String) × ℚ) → Option ℚ
  | [] => none
  | (q, v) :: rest => if q = p then some v else lookupStat p rest

/-! ### Fallible storage reads for the statistics path (src/app.py 215-241)

`get_stats` performs two kinds of reads — the `SELECT DISTINCT` for the pair
list and, per pair, the `get_recent_events` query — and wraps neither in any
`try/except`, so an `sqlite3` error raised by either propagates out of the
request handler.  The reads are modelled as `Except` values. -/

/-- An `sqlite3` error raised by a read. -/
inductive DbErr where
  | ioError
  | locked
  | corrupt
deriving DecidableEq

/-- The `get_stats` loop over the discovered pairs, with each per-pair
window query fallible.  Matching the Python loop, every pair's query is
executed (an error from any pair aborts the whole request), and a window
with fewer than two events is skipped. -/
def statsFold (pairs : List (String × Option String))
    (q : (String × Option String) → Except DbErr (List Int)) :
    Except DbErr (List ((String × Option String) × ℚ)) :=
  match pairs with
  | [] => .ok []
  | p :: ps =>
    match q p with
    | .error e => .error e
    | .ok w =>
      match statsFold ps q with
      | .error e => .error e
      | .ok rest => .ok (if w.length < 2 then rest else (p, statValue w) :: rest)

/-- `get_stats` with fallible storage reads: the distinct-pairs read, then
the per-pair window queries, with no handler anywhere on the path. -/
def get_statsE (distinctRes : Except DbErr (List (String × Option String)))
    (q : (String × Option String) → Except DbErr (List Int)) :
    Except DbErr (List ((String × Option String) × ℚ)) :=
  match distinctRes with
  | .error e => .error e
  | .ok pairs => statsFold pairs q

/-! ### Feed fetching and polling (src/app.py 143-183) -/

/-- The observable outcome of the `requests.get` call in
`fetch_repo_events`: either an HTTP response (whose body parses to a JSON
array of events or fails to parse), or one of the request-level failures. -/
inductive FetchOutcome where
  | response (status : Nat) (body : Except Unit (List Event))
  | timeoutErr
  | connectionErr
  | httpErr
  | requestErr

/-- The exception classes that the `try` block of `fetch_repo_events` can
raise: the four `requests.exceptions` classes and the `ValueError` from
`response.json()` on a malformed body. -/
inductive FetchExc where
  | timeoutExc
  | connectionExc
  | httpExc
  | requestExc
  | jsonValueExc
deriving DecidableEq

/-- The `try` block of `fetch_repo_events` (src/app.py 151-157): raises on a
request failure or an unparseable body; on a 200 response inserts every
event; on a non-200 status only logs. -/
def tryFetchBody (o : FetchOutcome) (store : Store) (repo : String) :
    Except FetchExc Store :=
  match o with
  | .timeoutErr => .error .timeoutExc
  | .connectionErr => .error .connectionExc
  | .httpErr => .error .httpExc
  | .requestErr => .error .requestExc
  | .response status body =>
    if status == 200 then
      match body with
      | .ok events => .ok (events.foldl (fun s e => insert_event s e repo) store)
      | .error _ => .error .jsonValueExc
    else .ok store

/-- `fetch_repo_events` (src/app.py 143-173): the `try` block with every one
of its five exception classes caught and logged, leaving the store
untouched. -/
def fetch_repo_events (o : FetchOutcome) (store : Store) (repo : String) : Store :=
  match tryFetchBody o store repo with
  | .ok s => s
  | .error _ => store

/-- `poll_github_events` (src/app.py 176-183): one cycle over the configured
repositories, fetching each in order; `outcomes` gives each repository's
fetch outcome for this cycle. -/
def poll_github_events (outcomes : String → FetchOutcome) (repos : List String)
    (store : Store) : Store :=
  repos.foldl (fun s repo => fetch_repo_events (outcomes repo) s repo) store

/-! ### Configuration (`load_config`, src/app.py 32-56) -/

/-- The failures `load_config` handles when reading the config file. -/
inductive ConfigErr where
  | fileNotFound
  | jsonDecodeError
deriving DecidableEq

/-- `load_config` (src/app.py 32-56): on a missing or unparseable file the
repository list is empty; otherwise the configured list, truncated to the
first `MAX_REPOS` entries when longer (`repos[:MAX_REPOS]`). -/
def load_config (parsed : Except ConfigErr (List String)) : List String :=
  match parsed with
  | .error _ => []
  | .ok repos => if MAX_REPOS < repos.length then repos.take MAX_REPOS else repos

/-! ### Poll scheduler discipline (src/app.py 186-193) -/

/-- Modelled from the spec: the job-execution discipline of the background
scheduler started by `start_scheduler` is library behaviour (APScheduler's
`BackgroundScheduler` with the default single allowed instance per job) and
is not code under src/.  Per the spec's §4.5 state machine, the scheduler is
Idle or Polling; a timer tick in Idle starts a cycle, a tick that arrives
while still Polling is skipped (not queued), and a cycle ending returns the
scheduler to Idle.  `running` counts the timer-driven cycles in flight. -/
structure SchedulerState where
  polling : Bool
  running : Nat
deriving DecidableEq

/-- The observable scheduler events: a timer tick, and the completion of the
running poll cycle. -/
inductive SchedulerEvent where
  | tick
  | cycleEnd

/-- The scheduler starts Idle with no cycle in flight. -/
def schedulerInit : SchedulerState := ⟨false, 0⟩

/-- Modelled from the spec: one transition of the §4.5 scheduler state
machine (tick while Polling is a no-op; tick while Idle starts a cycle;
cycle completion returns to Idle). -/
def scheduler_step (s : SchedulerState) (ev : SchedulerEvent) : SchedulerState :=
  match ev with
  | .tick => if s.polling then s else ⟨true, s.running + 1⟩
  | .cycleEnd => if s.polling then ⟨false, s.running - 1⟩ else s

/-- The scheduler state after a sequence of events from startup. -/
def schedulerRun (evts : List SchedulerEvent) : SchedulerState :=
  evts.foldl scheduler_step schedulerInit

/-! ## Helper lemmas -/

/-- How one `insert_event` call changes the set of rows bearing a given
non-NULL id, combined over a whole sequence of inserts: the rows with id `i`
after the sequence are the rows with id `i` already present, or, when there
were none, the row written by the first insert in the sequence bearing id
`i`. -/
lemma filter_foldInsert (l : List (Event × String)) (s : Store) (i : String) :
    (foldInsert s l).filter (fun r => r.id == some i) =
      if s.filter (fun r => r.id == some i) = [] then
        (match l.find? (fun p => p.1.id == some i) with
         | some (e, repo) => [rowOf e repo]
         | none => ([] : Store))
      else s.filter (fun r => r.id == some i) := by
  induction l generalizing s with
  | nil =>
    simp only [foldInsert, List.foldl_nil, List.find?_nil]
    split
    · next h => exact h
    · rfl
  | cons hd tl ih =>
    obtain ⟨e, repo⟩ := hd
    rw [show foldInsert s ((e, repo) :: tl) = foldInsert (insert_event s e repo) tl from rfl,
      ih]
    cases he : e.id with
    | none =>
      have hins : insert_event s e repo = s ++ [rowOf e repo] := by
        simp [insert_event, he]
      have hfil : (s ++ [rowOf e repo]).filter (fun r => r.id == some i) =
          s.filter (fun r => r.id == some i) := by
        simp [List.filter_append, rowOf, he]
      rw [hins, hfil, List.find?_cons_of_neg _ (by simp [he])]
    | some j =>
      by_cases hji : j = i
      · subst hji
        by_cases hany : s.any (fun r => r.id == some j) = true
        · have hins : insert_event s e repo = s := by
            simp [insert_event, he, hany]
          have hne : s.filter (fun r => r.id == some j) ≠ [] := by
            obtain ⟨r, hr, hq⟩ := List.any_eq_true.mp hany
            intro hnil
            have hmem : r ∈ s.filter (fun r => r.id == some j) :=
              List.mem_filter.mpr ⟨hr, hq⟩
            rw [hnil] at hmem
            exact absurd hmem (List.not_mem_nil r)
          rw [hins, if_neg hne, if_neg hne]
        · have hins : insert_event s e repo = s ++ [rowOf e repo] := by
            simp [insert_event, he, hany]
          have hnil : s.filter (fun r => r.id == some j) = [] := by
            rw [List.filter_eq_nil_iff]
            intro r hr hq
            exact hany (List.any_eq_true.mpr ⟨r, hr, hq⟩)
          have hfil : (s ++ [rowOf e repo]).filter (fun r => r.id == some j) =
              [rowOf e repo] := by
            simp [List.filter_append, hnil, rowOf, he]
          rw [hins, hfil,
            List.find?_cons_of_pos (p := fun q : Event × String => q.1.id == some j) _
              (by simp [he]),
            if_neg (by simp), if_pos hnil]
      · have hfilq : (insert_event s e repo).filter (fun r => r.id == some i) =
            s.filter (fun r => r.id == some i) := by
          by_cases hany : s.any (fun r => r.id == some j) = true
          · simp [insert_event, he, hany]
          · simp [insert_event, he, hany, List.filter_append, rowOf, hji]
        rw [hfilq, List.find?_cons_of_neg _ (by simp [he, hji])]

/-! ## Claims -/

/-- C2 counterexample: two events lacking the `id` field ("p1" and "p2"
payloads).  After inserting the first, the store contains a record whose id
equals the second event's id (both are NULL), yet inserting the second does
not leave the store unchanged: a second record is appended. -/
theorem insert_idempotence_counterexample :
    (∃ r ∈ insert_event [] ⟨none, some "PushEvent", some 0, "p1"⟩ "o/r",
        r.id = (⟨none, some "PushEvent", some 0, "p2"⟩ : Event).id) ∧
    insert_event (insert_event [] ⟨none, some "PushEvent", some 0, "p1"⟩ "o/r")
        ⟨none, some "PushEvent", some 0, "p2"⟩ "o/r" ≠
      insert_event [] ⟨none, some "PushEvent", some 0, "p1"⟩ "o/r" := by
  decide

/-- C2 (amended to events whose id is present): inserting an event whose
(present) id already appears in the store leaves the store unchanged, and
over any sequence of inserts the store keeps at most one record per present
id — the record written by the first insert bearing that id. -/
theorem insert_idempotent_for_present_ids :
    (∀ (store : Store) (e : Event) (repo : String) (i : String),
        e.id = some i → (∃ r ∈ store, r.id = some i) →
        insert_event store e repo = store) ∧
    (∀ (l : List (Event × String)) (i : String),
        ((foldInsert [] l).filter (fun r => r.id == some i)).length ≤ 1) ∧
    (∀ (l : List (Event × String)) (i : String) (e : Event) (repo : String),
        l.find? (fun p => p.1.id == some i) = some (e, repo) →
        (foldInsert [] l).filter (fun r => r.id == some i) = [rowOf e repo]) := by
  refine ⟨?_, ?_, ?_⟩
  · intro store e repo i he hex
    obtain ⟨r, hr, hid⟩ := hex
    have hany : store.any (fun r => r.id == some i) = true :=
      List.any_eq_true.mpr ⟨r, hr, by simp [hid]⟩
    simp [insert_event, he, hany]
  · intro l i
    rw [filter_foldInsert]
    simp only [List.filter_nil, if_pos]
    split <;> simp
  · intro l i e repo hfind
    rw [filter_foldInsert]
    simp [hfind]

/-- C2 witness, on the spec's scenario: two events with the same id "1" but
different payloads.  The second insert is a no-op, and the sequence leaves
exactly one record with id "1" — the one written by the first insert. -/
theorem insert_idempotent_for_present_ids_witness :
    insert_event [rowOf ⟨some "1", some "PushEvent", some 0, "p1"⟩ "o/r"]
        ⟨some "1", some "PushEvent", some 300, "p2"⟩ "o/r" =
      [rowOf ⟨some "1", some "PushEvent", some 0, "p1"⟩ "o/r"] ∧
    ((foldInsert [] [(⟨some "1", some "PushEvent", some 0, "p1"⟩, "o/r"),
        (⟨some "1", some "PushEvent", some 300, "p2"⟩, "o/r")]).filter
      (fun r => r.id == some "1")).length ≤ 1 ∧
    (foldInsert [] [(⟨some "1", some "PushEvent", some 0, "p1"⟩, "o/r"),
        (⟨some "1", some "PushEvent", some 300, "p2"⟩, "o/r")]).filter
      (fun r => r.id == some "1") =
      [rowOf ⟨some "1", some "PushEvent", some 0, "p1"⟩ "o/r"] :=
  ⟨insert_idempotent_for_present_ids.1 _ _ "o/r" "1" rfl
      ⟨rowOf ⟨some "1", some "PushEvent", some 0, "p1"⟩ "o/r", by decide⟩,
    insert_idempotent_for_present_ids.2.1 _ "1",
    insert_idempotent_for_present_ids.2.2 _ "1" _ "o/r" (by decide)⟩

/-- C10: for an event lacking the "id" field, `insert_event` always appends
a record with a NULL id — even to a store that already holds NULL-id
records — so a duplicate insert of an id-less event adds a second record.
The at-most-one-record-per-id guarantee therefore needs the id present. -/
theorem insert_event_null_id_appends (store : Store) (e : Event) (repo : String)
    (h : e.id = none) :
    insert_event store e repo = store ++ [rowOf e repo] ∧
    (rowOf e repo).id = none ∧
    insert_event (insert_event store e repo) e repo =
      store ++ [rowOf e repo, rowOf e repo] := by
  have h1 : ∀ s : Store, insert_event s e repo = s ++ [rowOf e repo] := by
    intro s
    simp [insert_event, h]
  refine ⟨h1 store, by simp [rowOf, h], ?_⟩
  rw [h1, h1]
  simp

/-- C10 witness: inserting the same id-less event twice into the empty store
yields two NULL-id records. -/
theorem insert_event_null_id_appends_witness :
    insert_event [] (⟨none, some "PushEvent", some 10, "pa"⟩ : Event) "o/r" =
      [rowOf ⟨none, some "PushEvent", some 10, "pa"⟩ "o/r"] ∧
    insert_event (insert_event [] (⟨none, some "PushEvent", some 10, "pa"⟩ : Event) "o/r")
        ⟨none, some "PushEvent", some 10, "pa"⟩ "o/r" =
      [rowOf ⟨none, some "PushEvent", some 10, "pa"⟩ "o/r",
        rowOf ⟨none, some "PushEvent", some 10, "pa"⟩ "o/r"] := by
  have h := insert_event_null_id_appends [] ⟨none, some "PushEvent", some 10, "pa"⟩ "o/r" rfl
  exact ⟨by simpa using h.1, by simpa using h.2.2⟩

/-- C8: `load_config` returns exactly the first `MAX_REPOS` (5) configured
repositories, in their original order, when the list is longer; a list of at
most `MAX_REPOS` entries is returned unchanged. -/
theorem load_config_caps_repos (repos : List String) :
    (MAX_REPOS < repos.length → load_config (.ok repos) = repos.take MAX_REPOS) ∧
    (repos.length ≤ MAX_REPOS → load_config (.ok repos) = repos) := by
  constructor
  · intro h
    simp [load_config, h]
  · intro h
    simp [load_config, Nat.not_lt.mpr h]

/-- C8 witness: a six-entry configuration is truncated to its first five
entries; a two-entry configuration is returned unchanged. -/
theorem load_config_caps_repos_witness :
    load_config (.ok ["a", "b", "c", "d", "e", "f"]) =
      (["a", "b", "c", "d", "e", "f"] : List String).take MAX_REPOS ∧
    load_config (.ok ["a", "b"]) = ["a", "b"] :=
  ⟨(load_config_caps_repos ["a", "b", "c", "d", "e", "f"]).1 (by decide),
    (load_config_caps_repos ["a", "b"]).2 (by decide)⟩

/-- A scheduler state reachable from startup has exactly one cycle in flight
while Polling and none while Idle. -/
lemma scheduler_foldl_inv (evts : List SchedulerEvent) (s : SchedulerState)
    (h : s.running = if s.polling then 1 else 0) :
    (evts.foldl scheduler_step s).running =
      if (evts.foldl scheduler_step s).polling then 1 else 0 := by
  induction evts generalizing s with
  | nil => exact h
  | cons ev rest ih =>
    apply ih
    cases ev with
    | tick =>
      by_cases hp : s.polling
      · simpa [scheduler_step, hp] using h
      · simp [scheduler_step, hp] at h ⊢
        omega
    | cycleEnd =>
      by_cases hp : s.polling
      · simp [scheduler_step, hp] at h ⊢
        omega
      · simpa [scheduler_step, hp] using h

/-- C9: along every event sequence from startup, at most one timer-driven
poll cycle is ever in flight, and a tick that arrives while the scheduler is
still Polling leaves the state unchanged (the tick is skipped, not
queued). -/
theorem scheduler_single_polling_cycle :
    (∀ evts : List SchedulerEvent, (schedulerRun evts).running ≤ 1) ∧
    (∀ s : SchedulerState, s.polling = true → scheduler_step s .tick = s) := by
  constructor
  · intro evts
    have h := scheduler_foldl_inv evts schedulerInit (by simp [schedulerInit])
    simp only [schedulerRun]
    split at h <;> omega
  · intro s hp
    simp [scheduler_step, hp]

/-- C9 witness: a tick arriving mid-cycle is a no-op, and a concrete event
sequence with such a tick never has more than one cycle in flight. -/
theorem scheduler_single_polling_cycle_witness :
    (schedulerRun [.tick, .tick, .cycleEnd, .tick]).running ≤ 1 ∧
    scheduler_step ⟨true, 1⟩ .tick = ⟨true, 1⟩ :=
  ⟨scheduler_single_polling_cycle.1 _,
    scheduler_single_polling_cycle.2 ⟨true, 1⟩ rfl⟩

/-! ## Window and statistics lemmas -/

/-- The selected window is a suffix (hence a sublist) of the sorted query
result. -/
lemma get_recent_events_sublist (store : Store) (repo : String) (et : Option String)
    (now : Int) :
    List.Sublist (get_recent_events store repo et now)
      (queryTimes store repo et (cutoffOf now)) := by
  unfold get_recent_events
  split
  · exact List.drop_sublist _ _
  · exact List.Sublist.refl _

/-- The query result is sorted ascending. -/
lemma sorted_queryTimes (store : Store) (repo : String) (et : Option String) (c : Int) :
    (queryTimes store repo et c).Sorted (· ≤ ·) :=
  List.sorted_insertionSort _ _

/-- Every timestamp returned by the query satisfies the cutoff. -/
lemma cutoff_le_of_mem_queryTimes {store : Store} {repo : String} {et : Option String}
    {c t : Int} (h : t ∈ queryTimes store repo et c) : c ≤ t := by
  have hmem := (List.perm_insertionSort (· ≤ ·) _).mem_iff.mp h
  obtain ⟨r, hr, hrt⟩ := List.mem_filterMap.mp hmem
  have h2 := (List.mem_filter.mp hr).2
  simp only [matchesQuery, Bool.and_eq_true] at h2
  have h3 : inCutoff c r = true := h2.2
  simp only [inCutoff, hrt, decide_eq_true_eq] at h3
  exact h3

/-- Every timestamp returned by the query comes from a matching row. -/
lemma exists_matching_of_mem_queryTimes {store : Store} {repo : String}
    {et : Option String} {c t : Int} (h : t ∈ queryTimes store repo et c) :
    ∃ r ∈ store, matchesQuery repo et c r = true := by
  have hmem := (List.perm_insertionSort (· ≤ ·) _).mem_iff.mp h
  obtain ⟨r, hr, _⟩ := List.mem_filterMap.mp hmem
  have hf := List.mem_filter.mp hr
  exact ⟨r, hf.1, hf.2⟩

/-- A row matching the window query has a non-NULL `created_at`. -/
lemma matches_isSome {repo : String} {et : Option String} {c : Int} {r : Row}
    (h : matchesQuery repo et c r = true) : (Row.created_at r).isSome := by
  simp only [matchesQuery, Bool.and_eq_true] at h
  have h3 := h.2
  cases hca : r.created_at with
  | none => simp [inCutoff, hca] at h3
  | some t => simp [hca]

/-- On rows whose `created_at` is present, extracting the timestamps keeps
the length. -/
lemma length_filterMap_created (l : List Row) (h : ∀ r ∈ l, (Row.created_at r).isSome) :
    (l.filterMap Row.created_at).length = l.length := by
  induction l with
  | nil => rfl
  | cons a l ih =>
    obtain ⟨t, ht⟩ := Option.isSome_iff_exists.mp (h a (List.mem_cons_self a l))
    rw [List.filterMap_cons, ht]
    simp [ih (fun r hr => h r (List.mem_cons_of_mem a hr))]

/-- The query returns one timestamp per matching row. -/
lemma queryTimes_length (store : Store) (repo : String) (et : Option String) (c : Int) :
    (queryTimes store repo et c).length =
      (store.filter (matchesQuery repo et c)).length := by
  unfold queryTimes
  rw [List.length_insertionSort]
  exact length_filterMap_created _ (fun r hr => matches_isSome (List.mem_filter.mp hr).2)

/-- A row matching the window query for a pair puts that pair into the
`SELECT DISTINCT` result. -/
lemma mem_distinct_pairs_of_matches {store : Store} {repo : String} {et : Option String}
    {c : Int} {r : Row} (hr : r ∈ store) (hm : matchesQuery repo et c r = true) :
    (repo, et) ∈ distinct_pairs store c := by
  simp only [matchesQuery, Bool.and_eq_true] at hm
  obtain ⟨⟨hrepo, hmatch⟩, hcut⟩ := hm
  have hrepo' : r.repo = repo := by simpa using hrepo
  cases het : et with
  | none =>
    rw [het] at hmatch
    simp at hmatch
  | some s =>
    cases hetr : r.event_type with
    | none =>
      rw [het, hetr] at hmatch
      simp at hmatch
    | some s' =>
      rw [het, hetr] at hmatch
      have hss : s' = s := by simpa using hmatch
      have hpair : (repo, some s) = (r.repo, r.event_type) := by
        rw [hrepo', hetr, hss]
      unfold distinct_pairs
      rw [List.mem_dedup, hpair]
      exact List.mem_map.mpr ⟨r, List.mem_filter.mpr ⟨hr, hcut⟩, rfl⟩

/-- Looking a key up in the stats map built from a duplicate-free pair list
finds that key's computed value. -/
lemma lookupStat_filterMap {pairs : List (String × Option String)}
    {f : String × Option String → Option ℚ} {p : String × Option String} {v : ℚ}
    (hmem : p ∈ pairs) (hnd : pairs.Nodup) (hv : f p = some v) :
    lookupStat p (pairs.filterMap (fun q => (f q).map (fun x => (q, x)))) = some v := by
  induction pairs with
  | nil => exact absurd hmem (List.not_mem_nil p)
  | cons q ps ih =>
    rw [List.filterMap_cons]
    by_cases hqp : q = p
    · subst hqp
      simp [hv, lookupStat]
    · have hpm : p ∈ ps := by
        cases List.mem_cons.mp hmem with
        | inl h => exact absurd h.symm hqp
        | inr h => exact h
      have hnd' := (List.nodup_cons.mp hnd).2
      cases hfq : f q with
      | none =>
        simp only [hfq, Option.map_none']
        exact ih hpm hnd'
      | some x =>
        simp only [hfq, Option.map_some']
        rw [lookupStat, if_neg hqp]
        exact ih hpm hnd'

/-- C4: an event stored with a timestamp strictly older than the cutoff
`now - MAX_DAYS` days is excluded from the selected window, whatever the
pair and however few events exist. -/
theorem window_excludes_stale_events (store : Store) (repo : String) (et : Option String)
    (now : Int) (r : Row) (t : Int) (hr : r ∈ store) (ht : r.created_at = some t)
    (hstale : t < cutoffOf now) :
    t ∉ get_recent_events store repo et now := by
  intro hmem
  have hq := (get_recent_events_sublist store repo et now).subset hmem
  have := cutoff_le_of_mem_queryTimes hq
  omega

/-- C4 witness: an event eight days old (now = 1,000,000 s, event at 0 s,
cutoff 395,200 s) is not in the window even though it is the only stored
event. -/
theorem window_excludes_stale_events_witness :
    (0 : Int) ∉ get_recent_events [⟨some "9", "o/r", some "T", some 0, "x"⟩] "o/r"
      (some "T") 1000000 :=
  window_excludes_stale_events _ "o/r" (some "T") 1000000
    ⟨some "9", "o/r", some "T", some 0, "x"⟩ 0 (by decide) rfl (by decide)

/-- C5: a pair whose selected window holds fewer than two timestamps gets no
entry at all in the statistics map. -/
theorem stats_omit_small_windows (store : Store) (now : Int) (p : String × Option String)
    (h : (get_recent_events store p.1 p.2 now).length < 2) :
    ∀ v : ℚ, (p, v) ∉ get_stats store now := by
  intro v hmem
  obtain ⟨q, hq, heq⟩ := List.mem_filterMap.mp hmem
  obtain ⟨w, hw, hpair⟩ := Option.map_eq_some'.mp heq
  injection hpair with h1 h2
  subst h1
  subst h2
  simp [statOf, h] at hw

/-- C5 witness: a store with a single event yields a window of length one
for its pair, and the statistics map has no entry for that pair. -/
theorem stats_omit_small_windows_witness :
    ((("o/r", some "T"), (300 : ℚ)) ∉
      get_stats [⟨some "1", "o/r", some "T", some 0, "x"⟩] 0) :=
  stats_omit_small_windows [⟨some "1", "o/r", some "T", some 0, "x"⟩] 0
    ("o/r", some "T") (by decide) 300

/-- C3: when more than `MAX_EVENTS` stored events for a pair fall within the
time bound, the window is exactly the `MAX_EVENTS` most recent of them: it
has length `MAX_EVENTS`, is ascending, is the suffix of the sorted query
result after the oldest surplus entries are dropped, every dropped timestamp
is at most every kept one, and the sorted query result is a permutation of
the matching stored timestamps. -/
theorem window_count_bound (store : Store) (repo : String) (et : Option String) (now : Int)
    (h : MAX_EVENTS < (store.filter (matchesQuery repo et (cutoffOf now))).length) :
    (get_recent_events store repo et now).length = MAX_EVENTS ∧
    (get_recent_events store repo et now).Sorted (· ≤ ·) ∧
    queryTimes store repo et (cutoffOf now) =
      (queryTimes store repo et (cutoffOf now)).take
          ((queryTimes store repo et (cutoffOf now)).length - MAX_EVENTS) ++
        get_recent_events store repo et now ∧
    (∀ a ∈ (queryTimes store repo et (cutoffOf now)).take
        ((queryTimes store repo et (cutoffOf now)).length - MAX_EVENTS),
      ∀ b ∈ get_recent_events store repo et now, a ≤ b) ∧
    (queryTimes store repo et (cutoffOf now)).Perm
      ((store.filter (matchesQuery repo et (cutoffOf now))).filterMap Row.created_at) := by
  have hlen : MAX_EVENTS < (queryTimes store repo et (cutoffOf now)).length := by
    rw [queryTimes_length]
    exact h
  have hgre : get_recent_events store repo et now =
      (queryTimes store repo et (cutoffOf now)).drop
        ((queryTimes store repo et (cutoffOf now)).length - MAX_EVENTS) := by
    unfold get_recent_events
    rw [if_pos hlen]
  have hsorted := sorted_queryTimes store repo et (cutoffOf now)
  refine ⟨?_, ?_, ?_, ?_, List.perm_insertionSort _ _⟩
  · rw [hgre, List.length_drop]
    omega
  · rw [hgre]
    exact List.Pairwise.sublist (List.drop_sublist _ _) hsorted
  · rw [hgre, List.take_append_drop]
  · intro a ha b hb
    rw [hgre] at hb
    have hp := List.pairwise_append.mp
      (show ((queryTimes store repo et (cutoffOf now)).take
            ((queryTimes store repo et (cutoffOf now)).length - MAX_EVENTS) ++
          (queryTimes store repo et (cutoffOf now)).drop
            ((queryTimes store repo et (cutoffOf now)).length - MAX_EVENTS)).Pairwise
          (· ≤ ·) by rw [List.take_append_drop]; exact hsorted)
    exact hp.2.2 a ha b hb

/-- A store of 501 identical-pair rows, used to exercise the count bound. -/
def storeCount : Store := List.replicate 501 ⟨some "x", "o/r", some "PushEvent", some 0, "p"⟩

set_option maxRecDepth 4096 in
/-- C3 witness: with 501 matching rows the window keeps exactly
`MAX_EVENTS = 500` of them, in ascending order. -/
theorem window_count_bound_witness :
    (get_recent_events storeCount "o/r" (some "PushEvent") 604800).length = MAX_EVENTS ∧
    (get_recent_events storeCount "o/r" (some "PushEvent") 604800).Sorted (· ≤ ·) :=
  ⟨(window_count_bound storeCount "o/r" (some "PushEvent") 604800 (by decide)).1,
    (window_count_bound storeCount "o/r" (some "PushEvent") 604800 (by decide)).2.1⟩

/-- C1: whenever a pair's selected window holds `n + 1` timestamps with
`n ≥ 1` gaps, the window is ascending (`t0 ≤ t1 ≤ ... ≤ tn`) and the
average interval that `/stats` reports for the pair is exactly
`(tn - t0) / n` — the elapsed span divided by the number of gaps. -/
theorem stats_average_is_span_over_gaps (store : Store) (repo : String)
    (et : Option String) (now : Int) (n : ℕ)
    (hlen : (get_recent_events store repo et now).length = n + 1) (hn : 1 ≤ n) :
    (get_recent_events store repo et now).Sorted (· ≤ ·) ∧
    lookupStat (repo, et) (get_stats store now) =
      some ((((get_recent_events store repo et now).getLastI -
          (get_recent_events store repo et now).headI : ℤ) : ℚ) / (n : ℚ)) := by
  have hsub := get_recent_events_sublist store repo et now
  have hsorted : (get_recent_events store repo et now).Sorted (· ≤ ·) :=
    List.Pairwise.sublist hsub (sorted_queryTimes store repo et (cutoffOf now))
  refine ⟨hsorted, ?_⟩
  have hne : get_recent_events store repo et now ≠ [] := by
    intro h0
    rw [h0] at hlen
    simp at hlen
  obtain ⟨t, htmem⟩ := List.exists_mem_of_ne_nil _ hne
  obtain ⟨r, hr, hm⟩ := exists_matching_of_mem_queryTimes (hsub.subset htmem)
  have hpairs : (repo, et) ∈ distinct_pairs store (cutoffOf now) :=
    mem_distinct_pairs_of_matches hr hm
  have hstat : statOf store now (repo, et) =
      some (statValue (get_recent_events store repo et now)) := by
    simp only [statOf]
    rw [if_neg (by rw [hlen]; omega)]
  have hval : statValue (get_recent_events store repo et now) =
      (((get_recent_events store repo et now).getLastI -
          (get_recent_events store repo et now).headI : ℤ) : ℚ) / (n : ℚ) := by
    unfold statValue
    rw [hlen]
    congr 1
    push_cast
    ring
  have hlook := lookupStat_filterMap hpairs (List.nodup_dedup _) hstat
  rw [hval] at hlook
  exact hlook

/-- The spec's scenario store: five events with id 1..5 for one pair,
timestamps 300 seconds apart, inserted in ascending order. -/
def storeScenario : Store := foldInsert []
  [(⟨some "1", some "PushEvent", some 0, "p"⟩, "o/r"),
   (⟨some "2", some "PushEvent", some 300, "p"⟩, "o/r"),
   (⟨some "3", some "PushEvent", some 600, "p"⟩, "o/r"),
   (⟨some "4", some "PushEvent", some 900, "p"⟩, "o/r"),
   (⟨some "5", some "PushEvent", some 1200, "p"⟩, "o/r")]

/-- C1 witness, on the spec's scenario: the five-event window is ascending
and `/stats` reports its span divided by its four gaps. -/
theorem stats_average_is_span_over_gaps_witness :
    (get_recent_events storeScenario "o/r" (some "PushEvent") 1200).Sorted (· ≤ ·) ∧
    lookupStat ("o/r", some "PushEvent") (get_stats storeScenario 1200) =
      some ((((get_recent_events storeScenario "o/r" (some "PushEvent") 1200).getLastI -
          (get_recent_events storeScenario "o/r" (some "PushEvent") 1200).headI : ℤ) : ℚ) /
        ((4 : ℕ) : ℚ)) :=
  stats_average_is_span_over_gaps storeScenario "o/r" (some "PushEvent") 1200 4
    (by decide) (by decide)

/-! ## Fetch and poll lemmas -/

/-- `insert_event` never removes a row. -/
lemma mem_insert_event {row : Row} {s : Store} (e : Event) (repo : String)
    (h : row ∈ s) : row ∈ insert_event s e repo := by
  unfold insert_event
  split
  · split
    · exact h
    · exact List.mem_append_left _ h
  · exact List.mem_append_left _ h

/-- After inserting an event bearing id `i`, some row bears id `i`. -/
lemma insert_event_establishes_id {s : Store} (e : Event) (repo : String) {i : String}
    (h : e.id = some i) : ∃ row ∈ insert_event s e repo, row.id = some i := by
  simp only [insert_event, h]
  split
  · next hany =>
    obtain ⟨row, hrow, hq⟩ := List.any_eq_true.mp hany
    exact ⟨row, hrow, by simpa using hq⟩
  · exact ⟨rowOf e repo, List.mem_append_right _ (List.mem_singleton_self _),
      by simp [rowOf, h]⟩

/-- Folding inserts over a list of events never removes a row. -/
lemma mem_foldl_insert {row : Row} (evs : List Event) (repo : String) :
    ∀ s : Store, row ∈ s → row ∈ evs.foldl (fun s e => insert_event s e repo) s := by
  induction evs with
  | nil => intro s h; exact h
  | cons e rest ih => intro s h; exact ih _ (mem_insert_event e repo h)

/-- Folding inserts preserves the presence of an id. -/
lemma foldl_insert_preserves_id {i : String} (evs : List Event) (repo : String) (s : Store)
    (h : ∃ row ∈ s, row.id = some i) :
    ∃ row ∈ evs.foldl (fun s e => insert_event s e repo) s, row.id = some i := by
  obtain ⟨row, hrow, hid⟩ := h
  exact ⟨row, mem_foldl_insert evs repo s hrow, hid⟩

/-- Folding inserts over a list containing an event with id `i` leaves a row
bearing id `i`. -/
lemma foldl_insert_establishes_id {i : String} {e : Event} (repo : String)
    (hid : e.id = some i) :
    ∀ (evs : List Event) (s : Store), e ∈ evs →
      ∃ row ∈ evs.foldl (fun s e => insert_event s e repo) s, row.id = some i := by
  intro evs
  induction evs with
  | nil =>
    intro s he
    exact absurd he (List.not_mem_nil e)
  | cons e' rest ih =>
    intro s he
    cases List.mem_cons.mp he with
    | inl h =>
      subst h
      exact foldl_insert_preserves_id rest repo _ (insert_event_establishes_id e repo hid)
    | inr h => exact ih _ h

/-- A fetch either leaves the store unchanged (any failure, or a non-200
status) or, on a 200 response with a well-formed body, inserts each event. -/
lemma fetch_repo_events_cases (o : FetchOutcome) (s : Store) (repo : String) :
    fetch_repo_events o s repo = s ∨
    ∃ evs, o = .response 200 (.ok evs) ∧
      fetch_repo_events o s repo = evs.foldl (fun s e => insert_event s e repo) s := by
  cases o with
  | response status body =>
    by_cases hst : status = 200
    · subst hst
      cases body with
      | ok evs =>
        right
        exact ⟨evs, rfl, by simp [fetch_repo_events, tryFetchBody]⟩
      | error u => left; simp [fetch_repo_events, tryFetchBody]
    · left; simp [fetch_repo_events, tryFetchBody, hst]
  | timeoutErr => left; rfl
  | connectionErr => left; rfl
  | httpErr => left; rfl
  | requestErr => left; rfl

/-- A fetch never removes a row. -/
lemma mem_fetch_repo_events {row : Row} (o : FetchOutcome) (s : Store) (repo : String)
    (h : row ∈ s) : row ∈ fetch_repo_events o s repo := by
  rcases fetch_repo_events_cases o s repo with heq | ⟨evs, _, heq⟩ <;> rw [heq]
  · exact h
  · exact mem_foldl_insert evs repo s h

/-- A poll cycle preserves the presence of an id whatever each repository's
fetch outcome. -/
lemma poll_preserves_id {i : String} (outcomes : String → FetchOutcome)
    (repos : List String) :
    ∀ s : Store, (∃ row ∈ s, row.id = some i) →
      ∃ row ∈ poll_github_events outcomes repos s, row.id = some i := by
  induction repos with
  | nil => intro s h; exact h
  | cons r rest ih =>
    intro s h
    obtain ⟨row, hrow, hid⟩ := h
    exact ih _ ⟨row, mem_fetch_repo_events (outcomes r) s r hrow, hid⟩

/-- C6: every exception class the fetch can raise is caught inside
`fetch_repo_events`, leaving the store untouched for that repository; and
whatever the other repositories' outcomes, a repository whose fetch
succeeds has each of its events' ids present in the store after the
cycle. -/
theorem poll_cycle_error_containment :
    (∀ (o : FetchOutcome) (s : Store) (repo : String) (exc : FetchExc),
        tryFetchBody o s repo = .error exc → fetch_repo_events o s repo = s) ∧
    (∀ (outcomes : String → FetchOutcome) (repos : List String) (s : Store)
        (repo : String) (evs : List Event), repo ∈ repos →
        outcomes repo = .response 200 (.ok evs) →
        ∀ e ∈ evs, ∀ i : String, e.id = some i →
          ∃ row ∈ poll_github_events outcomes repos s, row.id = some i) := by
  constructor
  · intro o s repo exc h
    unfold fetch_repo_events
    rw [h]
  · intro outcomes repos
    induction repos with
    | nil =>
      intro s repo evs hmem
      exact absurd hmem (List.not_mem_nil repo)
    | cons r rest ih =>
      intro s repo evs hmem hout e he i hid
      cases List.mem_cons.mp hmem with
      | inl hrr =>
        subst hrr
        have hfe : fetch_repo_events (outcomes repo) s repo =
            evs.foldl (fun s e => insert_event s e repo) s := by
          rw [hout]
          simp [fetch_repo_events, tryFetchBody]
        have hid' := foldl_insert_establishes_id repo hid evs s he
        rw [show poll_github_events outcomes (repo :: rest) s =
            poll_github_events outcomes rest (fetch_repo_events (outcomes repo) s repo)
          from rfl, hfe]
        exact poll_preserves_id outcomes rest _ hid'
      | inr hr => exact ih _ repo evs hr hout e he i hid

/-- One cycle's fetch outcomes for the C6 witness: repository "r/a" times
out, repository "r/b" returns one event with id "42". -/
def outcomesW : String → FetchOutcome := fun r =>
  if r = "r/b" then .response 200 (.ok [⟨some "42", some "PushEvent", some 0, "p"⟩])
  else .timeoutErr

/-- C6 witness: the timed-out repository's fetch leaves the store unchanged,
and the sibling repository's event is stored by the same cycle. -/
theorem poll_cycle_error_containment_witness :
    fetch_repo_events .timeoutErr [] "r/a" = [] ∧
    (∃ row ∈ poll_github_events outcomesW ["r/a", "r/b"] [], row.id = some "42") :=
  ⟨poll_cycle_error_containment.1 .timeoutErr [] "r/a" .timeoutExc rfl,
    poll_cycle_error_containment.2 outcomesW ["r/a", "r/b"] [] "r/b"
      [⟨some "42", some "PushEvent", some 0, "p"⟩] (by simp)
      (by simp [outcomesW]) ⟨some "42", some "PushEvent", some 0, "p"⟩ (by simp) "42" rfl⟩

/-! ## Statistics error propagation -/

/-- When every window query succeeds, the fallible statistics path computes
exactly the pure statistics map over the pair list. -/
lemma statsFold_all_ok (store : Store) (now : Int)
    (pairs : List (String × Option String)) :
    statsFold pairs (fun p => .ok (get_recent_events store p.1 p.2 now)) =
      .ok (pairs.filterMap (fun p => (statOf store now p).map (fun v => (p, v)))) := by
  induction pairs with
  | nil => rfl
  | cons p ps ih =>
    simp only [statsFold, ih, List.filterMap_cons]
    by_cases hw : (get_recent_events store p.1 p.2 now).length < 2
    · simp [statOf, hw]
    · simp [statOf, hw]

/-- C7: a failing distinct-pairs read fails the whole `/stats` request with
that error; a failing window query for any discovered pair fails the
request; while with all reads succeeding the request returns the pure
statistics map — in particular a store with no matching data yields a
successful empty map, not an error. -/
theorem stats_read_error_propagation :
    (∀ (q : (String × Option String) → Except DbErr (List Int)) (e : DbErr),
        get_statsE (.error e) q = .error e) ∧
    (∀ (pairs : List (String × Option String))
        (q : (String × Option String) → Except DbErr (List Int)),
        (∃ p ∈ pairs, ∃ e, q p = .error e) →
        ∃ e, get_statsE (.ok pairs) q = .error e) ∧
    (∀ (store : Store) (now : Int),
        get_statsE (.ok (distinct_pairs store (cutoffOf now)))
            (fun p => .ok (get_recent_events store p.1 p.2 now)) =
          .ok (get_stats store now)) ∧
    (∀ q : (String × Option String) → Except DbErr (List Int),
        get_statsE (.ok []) q = .ok []) := by
  refine ⟨fun q e => rfl, ?_, ?_, fun q => rfl⟩
  · intro pairs q
    induction pairs with
    | nil =>
      intro h
      obtain ⟨p, hp, _⟩ := h
      exact absurd hp (List.not_mem_nil p)
    | cons p' ps ih =>
      intro h
      cases hq : q p' with
      | error e => exact ⟨e, by simp [get_statsE, statsFold, hq]⟩
      | ok w =>
        have h' : ∃ p ∈ ps, ∃ e, q p = .error e := by
          obtain ⟨p, hp, e, hqe⟩ := h
          cases List.mem_cons.mp hp with
          | inl hpp =>
            subst hpp
            rw [hq] at hqe
            exact absurd hqe (by simp)
          | inr hps => exact ⟨p, hps, e, hqe⟩
        obtain ⟨e, he⟩ := ih h'
        refine ⟨e, ?_⟩
        have he' : statsFold ps q = .error e := he
        simp [get_statsE, statsFold, hq, he']
  · intro store now
    exact statsFold_all_ok store now _

/-- C7 witness: a request whose only window query fails is an error, while
the empty store gives a successful empty map. -/
theorem stats_read_error_propagation_witness :
    (∃ e, get_statsE (.ok [("o/r", some "PushEvent")])
        (fun _ => .error .ioError) = .error e) ∧
    get_statsE (.ok (distinct_pairs [] (cutoffOf 0)))
        (fun p => .ok (get_recent_events [] p.1 p.2 0)) = .ok (get_stats [] 0) :=
  ⟨stats_read_error_propagation.2.1 [("o/r", some "PushEvent")] (fun _ => .error .ioError)
      ⟨("o/r", some "PushEvent"), by simp, .ioError, rfl⟩,
    stats_read_error_propagation.2.2.1 [] 0⟩

end EventsTracker
